import Mathlib

/-!
Shallow embedding of the top-K result-ranking engine of
`src/collector/top_score_collector.rs` (the `TopDocs` collector of the
tantivy search library) together with the bounded per-segment collection
structure, the score-tweaking abstraction and the cross-segment merge it
delegates to.  `TopCollector` / `TopSegmentCollector`
(`collector/top_collector.rs`) and `TweakedScoreTopCollector`
(`collector/tweak_score_top_collector.rs`) are not part of the provided
sources; their behaviour is modelled from the specification, as marked on
each definition.

Machine scores (`Score = f32` in the source) are embedded as rationals:
every concrete score appearing in the collector's tests and scenarios is a
short decimal, represented exactly, and the collector only ever stores and
compares scores.  Document ids and segment ordinals (`u32`) are embedded as
`Nat`: the collector never performs arithmetic on them, so no overflow is
observable.
-/

/-- Embeds the `Score` type (`f32`) of the source: scores are only stored
and compared, so exact rationals are a faithful carrier for the decimal
score values involved. -/
abbrev Score : Type := ℚ

/-- Embeds `DocAddress(SegmentLocalId, DocId)`: a pair of a segment
ordinal and a segment-local document id. -/
structure DocAddress where
  segment : Nat
  doc : Nat
deriving DecidableEq, Repr

namespace DocAddress

/-- Lexicographic order on `DocAddress`: by segment ordinal, then by
local document id (the derived `Ord`/`PartialOrd` of the source type). -/
def le (a b : DocAddress) : Prop :=
  a.segment < b.segment ∨ (a.segment = b.segment ∧ a.doc ≤ b.doc)

/-- Strict lexicographic order on `DocAddress`. -/
def lt (a b : DocAddress) : Prop :=
  a.segment < b.segment ∨ (a.segment = b.segment ∧ a.doc < b.doc)

instance (a b : DocAddress) : Decidable (le a b) :=
  inferInstanceAs (Decidable (a.segment < b.segment ∨ (a.segment = b.segment ∧ a.doc ≤ b.doc)))

instance (a b : DocAddress) : Decidable (lt a b) :=
  inferInstanceAs (Decidable (a.segment < b.segment ∨ (a.segment = b.segment ∧ a.doc < b.doc)))

theorem le_refl (a : DocAddress) : le a a := Or.inr ⟨rfl, Nat.le_refl _⟩

theorem le_trans {a b c : DocAddress} (hab : le a b) (hbc : le b c) : le a c := by
  rcases hab with h | ⟨h1, h2⟩ <;> rcases hbc with h' | ⟨h1', h2'⟩
  · exact Or.inl (Nat.lt_trans h h')
  · exact Or.inl (h1' ▸ h)
  · exact Or.inl (h1 ▸ h')
  · exact Or.inr ⟨h1.trans h1', Nat.le_trans h2 h2'⟩

theorem le_antisymm {a b : DocAddress} (hab : le a b) (hba : le b a) : a = b := by
  rcases a with ⟨s, d⟩; rcases b with ⟨s', d'⟩
  rcases hab with h | ⟨h1, h2⟩ <;> rcases hba with h' | ⟨h1', h2'⟩ <;>
    simp_all <;> omega

theorem le_total (a b : DocAddress) : le a b ∨ le b a := by
  rcases a with ⟨s, d⟩; rcases b with ⟨s', d'⟩
  unfold le
  simp only
  omega

theorem lt_iff_le_not_le {a b : DocAddress} : lt a b ↔ (le a b ∧ ¬ le b a) := by
  rcases a with ⟨s, d⟩; rcases b with ⟨s', d'⟩
  unfold lt le
  simp only
  omega

theorem not_le_iff_lt {a b : DocAddress} : ¬ le a b ↔ lt b a := by
  rcases a with ⟨s, d⟩; rcases b with ⟨s', d'⟩
  unfold lt le
  simp only
  omega

end DocAddress

/-- Embeds `RankedDoc<T>`: a ranking key paired with a `DocAddress`
(the `(T, DocAddress)` pairs that populate a collector's fruit). -/
abbrev RankedDoc (K : Type) : Type := K × DocAddress

section RankOrder

variable {K : Type} [LinearOrder K]

/-- The comparison rule of the collector: `a` ranks at least as high as `b`
iff `a`'s key is greater, or the keys are equal and `a`'s address is
lexicographically at most `b`'s (key descending, address ascending). -/
def rankLe (a b : RankedDoc K) : Prop :=
  b.1 < a.1 ∨ (b.1 = a.1 ∧ DocAddress.le a.2 b.2)

/-- Strict version of `rankLe`: `a` ranks strictly higher than `b`. -/
def rankLt (a b : RankedDoc K) : Prop :=
  b.1 < a.1 ∨ (b.1 = a.1 ∧ DocAddress.lt a.2 b.2)

instance (a b : RankedDoc K) : Decidable (rankLe a b) :=
  inferInstanceAs (Decidable (b.1 < a.1 ∨ (b.1 = a.1 ∧ DocAddress.le a.2 b.2)))

instance (a b : RankedDoc K) : Decidable (rankLt a b) :=
  inferInstanceAs (Decidable (b.1 < a.1 ∨ (b.1 = a.1 ∧ DocAddress.lt a.2 b.2)))

theorem rankLe_refl (a : RankedDoc K) : rankLe a a :=
  Or.inr ⟨rfl, DocAddress.le_refl _⟩

instance : IsRefl (RankedDoc K) rankLe := ⟨rankLe_refl⟩

instance : IsTrans (RankedDoc K) rankLe := by
  constructor
  intro a b c hab hbc
  rcases hab with h | ⟨h1, h2⟩ <;> rcases hbc with h' | ⟨h1', h2'⟩
  · exact Or.inl (h'.trans h)
  · exact Or.inl (h1' ▸ h)
  · exact Or.inl (h1 ▸ h')
  · exact Or.inr ⟨h1'.trans h1, DocAddress.le_trans h2 h2'⟩

instance : IsAntisymm (RankedDoc K) rankLe := by
  constructor
  intro a b hab hba
  rcases hab with h | ⟨h1, h2⟩ <;> rcases hba with h' | ⟨h1', h2'⟩
  · exact absurd (h.trans h') (lt_irrefl _)
  · exact absurd h (h1' ▸ lt_irrefl _)
  · exact absurd h' (h1 ▸ lt_irrefl _)
  · exact Prod.ext h1' (DocAddress.le_antisymm h2 h2')

instance : IsTotal (RankedDoc K) rankLe := by
  constructor
  intro a b
  rcases lt_trichotomy a.1 b.1 with h | h | h
  · exact Or.inr (Or.inl h)
  · rcases DocAddress.le_total a.2 b.2 with h' | h'
    · exact Or.inl (Or.inr ⟨h.symm, h'⟩)
    · exact Or.inr (Or.inr ⟨h, h'⟩)
  · exact Or.inl (Or.inl h)

theorem not_rankLe_iff_rankLt {a b : RankedDoc K} : ¬ rankLe a b ↔ rankLt b a := by
  unfold rankLe rankLt
  rcases lt_trichotomy a.1 b.1 with h | h | h
  · constructor
    · intro _
      exact Or.inl h
    · intro _ hc
      rcases hc with h' | ⟨h1, _⟩
      · exact absurd (h.trans h') (lt_irrefl _)
      · exact absurd h (h1 ▸ lt_irrefl _)
  · constructor
    · intro hn
      refine Or.inr ⟨h, ?_⟩
      rw [← DocAddress.not_le_iff_lt]
      intro hle
      exact hn (Or.inr ⟨h.symm, hle⟩)
    · intro hlt hc
      rcases hlt with h' | ⟨_, h2⟩
      · exact absurd h' (h ▸ lt_irrefl _)
      · rcases hc with h' | ⟨_, h2'⟩
        · exact absurd h' (h ▸ lt_irrefl _)
        · exact (DocAddress.not_le_iff_lt.mpr h2) h2'
  · constructor
    · intro hn
      exact absurd (Or.inl h) hn
    · intro hlt
      rcases hlt with h' | ⟨h1, _⟩
      · intro _
        exact absurd (h'.trans h) (lt_irrefl _)
      · exact absurd h (h1 ▸ lt_irrefl _)

theorem rankLt_iff_rankLe_ne {a b : RankedDoc K} : rankLt a b ↔ (rankLe a b ∧ a ≠ b) := by
  constructor
  · intro h
    rcases h with h | ⟨h1, h2⟩
    · refine ⟨Or.inl h, ?_⟩
      intro he
      exact absurd h (he ▸ lt_irrefl _)
    · refine ⟨Or.inr ⟨h1, (DocAddress.lt_iff_le_not_le.mp h2).1⟩, ?_⟩
      intro he
      exact (DocAddress.lt_iff_le_not_le.mp h2).2 (he ▸ DocAddress.le_refl _)
  · intro ⟨hle, hne⟩
    rcases hle with h | ⟨h1, h2⟩
    · exact Or.inl h
    · refine Or.inr ⟨h1, DocAddress.lt_iff_le_not_le.mpr ⟨h2, ?_⟩⟩
      intro hba
      exact hne (Prod.ext h1.symm (DocAddress.le_antisymm h2 hba))

end RankOrder

section Sorting

variable {K : Type} [LinearOrder K]

/-- Sort a list of ranked documents by the comparison rule, best first
(the destructive descending drain of the spec's top-K working set). -/
def sortDesc (l : List (RankedDoc K)) : List (RankedDoc K) :=
  List.insertionSort rankLe l

theorem sortDesc_perm (l : List (RankedDoc K)) : (sortDesc l).Perm l :=
  List.perm_insertionSort rankLe l

theorem sortDesc_sorted (l : List (RankedDoc K)) : List.Sorted rankLe (sortDesc l) :=
  List.sorted_insertionSort rankLe l

theorem sortDesc_eq_of_sorted {l : List (RankedDoc K)} (h : List.Sorted rankLe l) :
    sortDesc l = l :=
  h.insertionSort_eq

theorem sortDesc_congr {l l' : List (RankedDoc K)} (h : l.Perm l') :
    sortDesc l = sortDesc l' :=
  List.eq_of_perm_of_sorted ((sortDesc_perm l).trans (h.trans (sortDesc_perm l').symm))
    (sortDesc_sorted l) (sortDesc_sorted l')

theorem sortDesc_cons (e : RankedDoc K) (l : List (RankedDoc K)) :
    sortDesc (e :: l) = List.orderedInsert rankLe e (sortDesc l) := rfl

/-- The `min(k, n)` best entries of `l` under the comparison rule: the
first `k` entries of the rank-sorted list. -/
def bestK (k : Nat) (l : List (RankedDoc K)) : List (RankedDoc K) :=
  (sortDesc l).take k

theorem sorted_take {l : List (RankedDoc K)} (h : List.Sorted rankLe l) (k : Nat) :
    List.Sorted rankLe (l.take k) :=
  List.Pairwise.sublist (List.take_sublist k l) h

theorem bestK_sorted (k : Nat) (l : List (RankedDoc K)) :
    List.Sorted rankLe (bestK k l) :=
  sorted_take (sortDesc_sorted l) k

theorem bestK_congr {l l' : List (RankedDoc K)} (h : l.Perm l') (k : Nat) :
    bestK k l = bestK k l' := by
  unfold bestK
  rw [sortDesc_congr h]

theorem length_bestK (k : Nat) (l : List (RankedDoc K)) :
    (bestK k l).length = min k l.length := by
  unfold bestK
  rw [List.length_take, (sortDesc_perm l).length_eq]

theorem take_cons_take {α : Type} (a : α) (l : List α) (j : Nat) :
    List.take j (a :: l.take j) = List.take j (a :: l) := by
  cases j with
  | zero => rfl
  | succ i =>
    simp only [List.take_succ_cons]
    rw [List.take_take]
    rw [min_eq_left (Nat.le_succ i)]

theorem take_orderedInsert (e : RankedDoc K) :
    ∀ (S : List (RankedDoc K)) (k : Nat),
      (List.orderedInsert rankLe e S).take k
        = (List.orderedInsert rankLe e (S.take k)).take k
  | [], k => by simp
  | a :: S', 0 => by simp
  | a :: S', (j+1) => by
    by_cases h : rankLe e a
    · simp only [List.orderedInsert, if_pos h, List.take_succ_cons]
      rw [take_cons_take]
    · simp only [List.orderedInsert, if_neg h, List.take_succ_cons]
      rw [take_orderedInsert e S' j]

theorem bestK_cons (k : Nat) (e : RankedDoc K) (l : List (RankedDoc K)) :
    bestK k (e :: l) = (List.orderedInsert rankLe e (bestK k l)).take k := by
  unfold bestK
  rw [sortDesc_cons]
  exact take_orderedInsert e (sortDesc l) k

theorem sorted_rel_getLast? {l : List (RankedDoc K)} (hs : List.Sorted rankLe l)
    {w : RankedDoc K} (hw : l.getLast? = some w) : ∀ a ∈ l, rankLe a w := by
  induction l with
  | nil => simp at hw
  | cons a t ih =>
    cases t with
    | nil =>
      simp only [List.getLast?_singleton, Option.some.injEq] at hw
      subst hw
      intro x hx
      rw [List.mem_singleton] at hx
      subst hx
      exact rankLe_refl _
    | cons b t' =>
      rw [List.getLast?_cons_cons] at hw
      intro x hx
      rcases List.mem_cons.mp hx with rfl | hx'
      · exact List.rel_of_sorted_cons hs _ (List.mem_of_mem_getLast? hw)
      · exact ih hs.of_cons hw x hx'

theorem getLast?_eq_of_min {l : List (RankedDoc K)} (hs : List.Sorted rankLe l)
    {w v : RankedDoc K} (hw : l.getLast? = some w) (hv : v ∈ l)
    (hmin : ∀ a ∈ l, rankLe a v) : w = v :=
  antisymm (hmin w (List.mem_of_mem_getLast? hw)) (sorted_rel_getLast? hs hw v hv)

theorem erase_append_singleton_perm (a : RankedDoc K) :
    ∀ t : List (RankedDoc K), ((t ++ [a]).erase a).Perm t
  | [] => by simp
  | b :: t => by
    by_cases hba : b = a
    · subst hba
      rw [List.cons_append, List.erase_cons_head]
      exact List.perm_append_singleton b t
    · rw [List.cons_append, List.erase_cons_tail (by simpa using hba)]
      exact (erase_append_singleton_perm a t).cons b

theorem erase_getLast?_perm {l : List (RankedDoc K)} {w : RankedDoc K}
    (hw : l.getLast? = some w) : (l.erase w).Perm l.dropLast := by
  have hne : l ≠ [] := by
    intro h
    subst h
    simp at hw
  have h2 : l.getLast hne = w := by
    rw [List.getLast?_eq_getLast l hne] at hw
    exact Option.some.inj hw
  have h3 : l.dropLast ++ [w] = l := by
    rw [← h2]
    exact List.dropLast_append_getLast hne
  have h4 := erase_append_singleton_perm w l.dropLast
  rwa [h3] at h4

end Sorting

theorem length_sortDesc {K : Type} [LinearOrder K] (l : List (RankedDoc K)) :
    (sortDesc l).length = l.length :=
  (sortDesc_perm l).length_eq

/-- The error variants of `TantivyError` relevant to this core. -/
inductive TantivyError : Type
  | schemaError (msg : String)
  | invalidArgument (msg : String)
deriving DecidableEq

/-- Modelled from the spec: the state of one bounded Top-K segment
collector (`TopSegmentCollector<T>` of `collector/top_collector.rs`, which
is not under `src/`): the capacity `limit`, the segment ordinal used to tag
collected documents, and the working set of retained entries. -/
structure TopSegmentCollector (K : Type) where
  limit : Nat
  segment_local_id : Nat
  buffer : List (RankedDoc K)

/-- Modelled from the spec: a fresh bounded segment collector with an empty
working set. -/
def TopSegmentCollector.new (K : Type) (limit segment_local_id : Nat) :
    TopSegmentCollector K :=
  ⟨limit, segment_local_id, []⟩

section Collect

variable {K : Type} [LinearOrder K]

/-- Modelled from the spec: the current worst-held entry of the working
set — its minimum under the comparison rule (the last entry of the
descending sort), `none` when the working set is empty. -/
def worstEntry (buf : List (RankedDoc K)) : Option (RankedDoc K) :=
  (sortDesc buf).getLast?

/-- Modelled from the spec (§4.1): insert-or-discard on the bounded
working set.  If fewer than `k` entries are held, insert unconditionally;
otherwise compare the new entry against the current worst-held entry and,
iff the new entry ranks strictly higher, evict the worst and insert the
new one. -/
def bufCollect (k : Nat) (e : RankedDoc K) (buf : List (RankedDoc K)) :
    List (RankedDoc K) :=
  if buf.length < k then e :: buf
  else
    match worstEntry buf with
    | none => buf
    | some w => if rankLt e w then e :: buf.erase w else buf

/-- Modelled from the spec: `collect(doc, score)` tags the document with
the collector's segment ordinal and feeds it to the working set. -/
def TopSegmentCollector.collect (c : TopSegmentCollector K) (doc : Nat) (score : K) :
    TopSegmentCollector K :=
  { c with buffer := bufCollect c.limit (score, ⟨c.segment_local_id, doc⟩) c.buffer }

/-- Feed one pre-addressed entry to the working set (the same insertion the
collector performs after tagging; used to express a scan over documents of
several segments). -/
def TopSegmentCollector.collectEntry (c : TopSegmentCollector K) (e : RankedDoc K) :
    TopSegmentCollector K :=
  { c with buffer := bufCollect c.limit e c.buffer }

/-- Modelled from the spec: `harvest` drains the working set into a
descending-ordered sequence. -/
def TopSegmentCollector.harvest (c : TopSegmentCollector K) : List (RankedDoc K) :=
  sortDesc c.buffer

/-- Feed a list of pre-addressed entries, in order, to the collector. -/
def TopSegmentCollector.collectEntries (c : TopSegmentCollector K)
    (l : List (RankedDoc K)) : TopSegmentCollector K :=
  l.foldl TopSegmentCollector.collectEntry c

theorem erase_beq_indep {α : Type} [DecidableEq α] [BEq α] [LawfulBEq α] :
    ∀ (l : List α) (a : α), l.erase a = @List.erase α instBEqOfDecidableEq l a
  | [], _ => rfl
  | b :: t, a => by
    simp only [List.erase_cons]
    by_cases h : b = a
    · simp [h]
    · simp [h, erase_beq_indep t a]

theorem perm_erase {l₁ l₂ : List (RankedDoc K)} (a : RankedDoc K) (h : l₁.Perm l₂) :
    (l₁.erase a).Perm (l₂.erase a) := by
  rw [erase_beq_indep l₁ a, erase_beq_indep l₂ a]
  exact h.erase a

theorem bufCollect_full {k : Nat} {buf : List (RankedDoc K)} (hnlt : ¬ buf.length < k)
    {w : RankedDoc K} (hw : worstEntry buf = some w) (e : RankedDoc K) :
    bufCollect k e buf = if rankLt e w then e :: buf.erase w else buf := by
  rw [bufCollect, if_neg hnlt, hw]

/-- One insert-or-discard step behaves like sorted insertion truncated to
capacity `k`: the central characterization of `bufCollect`. -/
theorem bufCollect_sortDesc {k : Nat} (e : RankedDoc K) (buf : List (RankedDoc K))
    (hlen : buf.length ≤ k) :
    sortDesc (bufCollect k e buf) = (List.orderedInsert rankLe e (sortDesc buf)).take k := by
  have hXB : (List.orderedInsert rankLe e (sortDesc buf)).Perm (e :: buf) :=
    (List.perm_orderedInsert rankLe e (sortDesc buf)).trans ((sortDesc_perm buf).cons e)
  have hXs : List.Sorted rankLe (List.orderedInsert rankLe e (sortDesc buf)) :=
    (sortDesc_sorted buf).orderedInsert e (sortDesc buf)
  by_cases hlt : buf.length < k
  · rw [bufCollect, if_pos hlt]
    have hXlen : (List.orderedInsert rankLe e (sortDesc buf)).length ≤ k := by
      rw [List.orderedInsert_length, length_sortDesc]
      omega
    rw [List.take_of_length_le hXlen]
    exact List.eq_of_perm_of_sorted ((sortDesc_perm _).trans hXB.symm) (sortDesc_sorted _) hXs
  · have hbl : buf.length = k := le_antisymm hlen (not_lt.mp hlt)
    cases k with
    | zero =>
      have hnil : buf = [] := List.length_eq_zero.mp hbl
      subst hnil
      simp [bufCollect, worstEntry, sortDesc]
    | succ k' =>
      have hBlen : (sortDesc buf).length = k' + 1 := by rw [length_sortDesc, hbl]
      have hBne : sortDesc buf ≠ [] := by
        intro h
        rw [h] at hBlen
        simp at hBlen
      have hw : (sortDesc buf).getLast? = some ((sortDesc buf).getLast hBne) :=
        List.getLast?_eq_getLast _ hBne
      have hwE : worstEntry buf = some ((sortDesc buf).getLast hBne) := hw
      rw [bufCollect_full hlt hwE e]
      have hmin : ∀ a ∈ sortDesc buf, rankLe a ((sortDesc buf).getLast hBne) :=
        sorted_rel_getLast? (sortDesc_sorted buf) hw
      have hwB : (sortDesc buf).getLast hBne ∈ sortDesc buf :=
        List.mem_of_mem_getLast? hw
      have hXlen : (List.orderedInsert rankLe e (sortDesc buf)).length = k' + 2 := by
        rw [List.orderedInsert_length, hBlen]
      have hXne : List.orderedInsert rankLe e (sortDesc buf) ≠ [] := by
        intro h
        rw [h] at hXlen
        simp at hXlen
      have hwX : (List.orderedInsert rankLe e (sortDesc buf)).getLast? =
          some ((List.orderedInsert rankLe e (sortDesc buf)).getLast hXne) :=
        List.getLast?_eq_getLast _ hXne
      have hminX : ∀ a ∈ List.orderedInsert rankLe e (sortDesc buf),
          rankLe a ((List.orderedInsert rankLe e (sortDesc buf)).getLast hXne) :=
        sorted_rel_getLast? hXs hwX
      have htake : (List.orderedInsert rankLe e (sortDesc buf)).take (k' + 1) =
          (List.orderedInsert rankLe e (sortDesc buf)).dropLast := by
        rw [List.dropLast_eq_take, hXlen]
        norm_num
      have hdP : ((List.orderedInsert rankLe e (sortDesc buf)).erase
            ((List.orderedInsert rankLe e (sortDesc buf)).getLast hXne)).Perm
          (List.orderedInsert rankLe e (sortDesc buf)).dropLast :=
        erase_getLast?_perm hwX
      have htks : List.Sorted rankLe
          ((List.orderedInsert rankLe e (sortDesc buf)).take (k' + 1)) :=
        sorted_take hXs _
      by_cases hcmp : rankLt e ((sortDesc buf).getLast hBne)
      · rw [if_pos hcmp]
        have hne : e ≠ (sortDesc buf).getLast hBne := (rankLt_iff_rankLe_ne.mp hcmp).2
        have hle : rankLe e ((sortDesc buf).getLast hBne) := (rankLt_iff_rankLe_ne.mp hcmp).1
        have hwlast : (List.orderedInsert rankLe e (sortDesc buf)).getLast hXne =
            (sortDesc buf).getLast hBne := by
          apply getLast?_eq_of_min hXs hwX
          · exact (List.mem_orderedInsert rankLe).mpr (Or.inr hwB)
          · intro a ha
            rcases (List.mem_orderedInsert rankLe).mp ha with rfl | haB
            · exact hle
            · exact hmin a haB
        have hperm : ((List.orderedInsert rankLe e (sortDesc buf)).take (k' + 1)).Perm
            (e :: buf.erase ((sortDesc buf).getLast hBne)) := by
          rw [htake]
          refine (hdP.symm).trans ?_
          rw [hwlast]
          refine (perm_erase _ hXB).trans ?_
          rw [List.erase_cons_tail (by simpa using hne)]
        exact (List.eq_of_perm_of_sorted
          ((sortDesc_perm _).trans hperm.symm) (sortDesc_sorted _) htks)
      · rw [if_neg hcmp]
        have hwe : rankLe ((sortDesc buf).getLast hBne) e := by
          by_contra hc
          exact hcmp (not_rankLe_iff_rankLt.mp hc)
        have helast : (List.orderedInsert rankLe e (sortDesc buf)).getLast hXne = e := by
          apply getLast?_eq_of_min hXs hwX
          · exact (List.mem_orderedInsert rankLe).mpr (Or.inl rfl)
          · intro a ha
            rcases (List.mem_orderedInsert rankLe).mp ha with rfl | haB
            · exact rankLe_refl a
            · exact Trans.trans (hmin a haB) hwe
        have hperm : ((List.orderedInsert rankLe e (sortDesc buf)).take (k' + 1)).Perm buf := by
          rw [htake]
          refine (hdP.symm).trans ?_
          rw [helast]
          refine (perm_erase _ hXB).trans ?_
          rw [List.erase_cons_head]
        exact List.eq_of_perm_of_sorted
          ((sortDesc_perm buf).trans hperm.symm) (sortDesc_sorted buf) htks

end Collect

section Fold

variable {K : Type} [LinearOrder K]

theorem collectEntries_cons (c : TopSegmentCollector K) (e : RankedDoc K)
    (t : List (RankedDoc K)) :
    c.collectEntries (e :: t) = (c.collectEntry e).collectEntries t := rfl

theorem collectEntries_buffer_sortDesc (k ord : Nat) :
    ∀ (l : List (RankedDoc K)) (buf p : List (RankedDoc K)),
      sortDesc buf = bestK k p →
      sortDesc ((TopSegmentCollector.collectEntries ⟨k, ord, buf⟩ l).buffer)
        = bestK k (p ++ l)
  | [], buf, p, h => by
    simpa [TopSegmentCollector.collectEntries] using h
  | e :: t, buf, p, h => by
    have hlen : buf.length ≤ k := by
      have h1 : buf.length = (bestK k p).length := by rw [← length_sortDesc buf, h]
      rw [h1, length_bestK]
      exact Nat.min_le_left _ _
    have hstep : sortDesc (bufCollect k e buf) = bestK k (p ++ [e]) := by
      rw [bufCollect_sortDesc e buf hlen, h, ← bestK_cons]
      exact bestK_congr (List.perm_append_singleton e p).symm k
    have hrec := collectEntries_buffer_sortDesc k ord t (bufCollect k e buf) (p ++ [e]) hstep
    have happ : (p ++ [e]) ++ t = p ++ e :: t := by simp
    rw [happ] at hrec
    exact hrec

theorem harvest_collectEntries (k ord : Nat) (l : List (RankedDoc K)) :
    ((TopSegmentCollector.new K k ord).collectEntries l).harvest = bestK k l := by
  have h0 : sortDesc ([] : List (RankedDoc K)) = bestK k [] := by
    simp [sortDesc, bestK]
  have h := collectEntries_buffer_sortDesc k ord l [] [] h0
  simpa [TopSegmentCollector.new, TopSegmentCollector.harvest] using h

/-- A segment scan: feed every `(doc_id, score)` pair of `docs`, in order,
to a fresh bounded segment collector of capacity `k` for segment `ord`
(the external scan harness described by the spec). -/
def runSegmentCollector (k ord : Nat) (docs : List (Nat × K)) : TopSegmentCollector K :=
  docs.foldl (fun c d => c.collect d.1 d.2) (TopSegmentCollector.new K k ord)

/-- The ranked entries a segment scan presents: each `(doc_id, score)`
pair tagged with the segment's ordinal. -/
def segEntries (ord : Nat) (docs : List (Nat × K)) : List (RankedDoc K) :=
  docs.map (fun d => (d.2, (⟨ord, d.1⟩ : DocAddress)))

theorem foldl_collect_eq :
    ∀ (docs : List (Nat × K)) (c : TopSegmentCollector K),
      docs.foldl (fun c d => c.collect d.1 d.2) c
        = c.collectEntries (segEntries c.segment_local_id docs)
  | [], _ => rfl
  | d :: t, c => by
    rw [List.foldl_cons, foldl_collect_eq t (c.collect d.1 d.2)]
    rfl

theorem runSegmentCollector_harvest (k ord : Nat) (docs : List (Nat × K)) :
    (runSegmentCollector k ord docs).harvest = bestK k (segEntries ord docs) := by
  unfold runSegmentCollector
  rw [foldl_collect_eq docs (TopSegmentCollector.new K k ord)]
  exact harvest_collectEntries k ord _

theorem bestK_bestK (k : Nat) (l : List (RankedDoc K)) : bestK k (bestK k l) = bestK k l := by
  unfold bestK
  rw [sortDesc_eq_of_sorted (sorted_take (sortDesc_sorted l) k), List.take_take, min_self]

theorem bestK_append_bestK (k : Nat) :
    ∀ (l₂ l₁ : List (RankedDoc K)), bestK k (bestK k l₁ ++ l₂) = bestK k (l₁ ++ l₂)
  | [], l₁ => by simpa using bestK_bestK k l₁
  | e :: t, l₁ => by
    calc bestK k (bestK k l₁ ++ e :: t)
        = bestK k (e :: (bestK k l₁ ++ t)) := bestK_congr List.perm_middle k
      _ = (List.orderedInsert rankLe e (bestK k (bestK k l₁ ++ t))).take k :=
          bestK_cons k e _
      _ = (List.orderedInsert rankLe e (bestK k (l₁ ++ t))).take k := by
          rw [bestK_append_bestK k t l₁]
      _ = bestK k (e :: (l₁ ++ t)) := (bestK_cons k e _).symm
      _ = bestK k (l₁ ++ e :: t) := bestK_congr List.perm_middle.symm k

theorem bestK_append_congr {k : Nat} {l₁ l₁' : List (RankedDoc K)}
    (h : bestK k l₁ = bestK k l₁') (l₂ : List (RankedDoc K)) :
    bestK k (l₁ ++ l₂) = bestK k (l₁' ++ l₂) := by
  rw [← bestK_append_bestK k l₂ l₁, h, bestK_append_bestK k l₂ l₁']

theorem bestK_join_map_bestK (k : Nat) :
    ∀ ls : List (List (RankedDoc K)),
      bestK k (ls.map (bestK k)).flatten = bestK k ls.flatten
  | [] => rfl
  | s :: rest => by
    show bestK k (bestK k s ++ (rest.map (bestK k)).flatten) = bestK k (s ++ rest.flatten)
    rw [bestK_append_bestK]
    calc bestK k (s ++ (rest.map (bestK k)).flatten)
        = bestK k ((rest.map (bestK k)).flatten ++ s) := bestK_congr List.perm_append_comm k
      _ = bestK k (rest.flatten ++ s) := bestK_append_congr (bestK_join_map_bestK k rest) s
      _ = bestK k (s ++ rest.flatten) := bestK_congr List.perm_append_comm k

end Fold

/-- Modelled from the spec (§4.3) and the delegating wrapper in src: the
query-level `TopCollector<T>` holds the requested limit
(`collector/top_collector.rs` is not under `src/`). -/
structure TopCollector (K : Type) where
  limit : Nat

/-- Outcome of an operation that may abort the process: a Rust panic is
embedded as the explicit `panicked` outcome. -/
inductive PanicOr (A : Type) : Type where
  | panicked
  | ok (value : A)
deriving DecidableEq

/-- Modelled from the spec (§4.3 construction guard) as sharpened by the
src doc comment ("# Panics — The method panics if limit is 0") and the
`#[should_panic]` test `test_top_0`: `TopCollector::with_limit` panics on
limit 0, otherwise stores the limit unchanged. -/
def TopCollector.with_limit (K : Type) (limit : Nat) : PanicOr (TopCollector K) :=
  if limit = 0 then .panicked else .ok ⟨limit⟩

/-- `TopDocs(TopCollector<Score>)` — src/src/collector/top_score_collector.rs
line 69; `inner` is the tuple field `0`. -/
structure TopDocs where
  inner : TopCollector Score

/-- `TopDocs::with_limit` (src lines 71-78): wraps `TopCollector::with_limit`,
whose panic on limit 0 is documented in src and asserted by `test_top_0`. -/
def TopDocs.with_limit (limit : Nat) : PanicOr TopDocs :=
  match TopCollector.with_limit Score limit with
  | .panicked => .panicked
  | .ok c => .ok ⟨c⟩

/-- `TopDocs::requires_scoring` (src lines 129-131): always true. -/
def TopDocs.requires_scoring (_t : TopDocs) : Bool :=
  true

/-- Modelled from the spec (§4.3 merge step): merge the per-segment fruits,
each already sorted descending, into the global top `limit`: concatenate
and keep the `limit` best under the same comparison rule (the spec allows
the concatenate-and-sort strategy — the output ordering is the only
observable contract). `TopCollector::merge_fruits` is not under `src/`;
the merge itself never fails, so it returns `Except.ok`. -/
def TopCollector.merge_fruits {K : Type} [LinearOrder K] (c : TopCollector K)
    (children : List (List (RankedDoc K))) : Except TantivyError (List (RankedDoc K)) :=
  .ok ((sortDesc children.flatten).take c.limit)

/-- `TopDocs::merge_fruits` (src lines 133-136): delegates to the inner
`TopCollector`. -/
def TopDocs.merge_fruits (t : TopDocs) (child_fruits : List (List (RankedDoc Score))) :
    Except TantivyError (List (RankedDoc Score)) :=
  t.inner.merge_fruits child_fruits

/-- Modelled from the spec (§6): the columnar fast-field face of a segment
reader — for each field id, optionally a random-access u64 reader (a total
function from local doc id to raw value); `none` when the field has no
fast-field column. -/
structure SegmentReader where
  fastFieldsU64 : Nat → Option (Nat → Nat)

/-- Modelled from the spec (§6 `resolve_numeric_reader`): lenient
resolution of the u64 fast-field reader of `field`
(`fast_fields().u64_lenient(field)` in src). -/
def SegmentReader.u64_lenient (r : SegmentReader) (field : Nat) : Option (Nat → Nat) :=
  r.fastFieldsU64 field

/-- Modelled from the spec: one schema entry — whether the field is
configured as a random-access (fast) field. -/
structure FieldEntry where
  isFast : Bool
deriving DecidableEq

/-- Modelled from the spec: a schema is the ordered list of its field
entries; the field id `i` names entry `i`. -/
abbrev Schema : Type := List FieldEntry

/-- Modelled from the spec (§6, §4.3): the segment reader a schema and its
column data induce — fast-field resolution succeeds exactly when the field
exists in the schema and is configured fast. -/
def SegmentReader.ofSchema (s : Schema) (data : Nat → Nat → Nat) : SegmentReader :=
  ⟨fun f =>
    if h : f < s.length then
      if (s.get ⟨f, h⟩).isFast then some (data f) else none
    else none⟩

/-- Modelled from the spec (§4.2): a query-level score tweaker — a
fallible binder from a segment to the segment-level tweak function
`(doc, original_score) → key` (the shape `TopDocs::tweak_score` consumes;
a Rust closure tweaker is exactly such a function). -/
abbrev ScoreTweaker (V : Type) : Type :=
  SegmentReader → Except TantivyError (Nat → Score → V)

/-- Modelled from the spec (§4.3): `TweakedScoreTopCollector` pairs the
score tweaker with the limit it was constructed with
(`collector/tweak_score_top_collector.rs` is not under `src/`). -/
structure TweakedScoreTopCollector (V : Type) where
  score_tweaker : ScoreTweaker V
  limit : Nat

/-- Modelled from the spec: the constructor stores its two arguments. -/
def TweakedScoreTopCollector.new {V : Type} (score_tweaker : ScoreTweaker V)
    (limit : Nat) : TweakedScoreTopCollector V :=
  ⟨score_tweaker, limit⟩

/-- `TopDocs::tweak_score` (src lines 102-112):
`TweakedScoreTopCollector::new(score_tweaker, self.0.limit())`. -/
def TopDocs.tweak_score {V : Type} (t : TopDocs) (score_tweaker : ScoreTweaker V) :
    TweakedScoreTopCollector V :=
  TweakedScoreTopCollector.new score_tweaker t.inner.limit

/-- `TopDocs::order_by_field` (src lines 84-100): tweak the score via the
lenient u64 fast-field reader of `field`; absence of the reader is a
`SchemaError` ("Field is not a fast field.").  `from_u64` stands for
`TFastValue::from_u64`; the returned segment tweak ignores its score
argument. -/
def TopDocs.order_by_field {V : Type} (t : TopDocs) (from_u64 : Nat → V) (field : Nat) :
    TweakedScoreTopCollector V :=
  t.tweak_score (fun segment_reader =>
    match segment_reader.u64_lenient field with
    | none => .error (.schemaError "Field is not a fast field.")
    | some ff_reader => .ok (fun doc _score => from_u64 (ff_reader doc)))

/-- Modelled from the spec (§4.3): the tweaked segment collector — a
bounded top-K segment collector composed with the segment-level tweak. -/
structure TweakedSegmentCollector (V : Type) where
  inner : TopSegmentCollector V
  tweak : Nat → Score → V

/-- Modelled from the spec (§4.3): bind the tweaker to the segment
(propagating its failure, which aborts the search before any document is
collected) and build a bounded segment collector of the stored capacity. -/
def TweakedScoreTopCollector.for_segment {V : Type} (c : TweakedScoreTopCollector V)
    (segment_local_id : Nat) (reader : SegmentReader) :
    Except TantivyError (TweakedSegmentCollector V) :=
  match c.score_tweaker reader with
  | .error e => .error e
  | .ok tw => .ok ⟨TopSegmentCollector.new V c.limit segment_local_id, tw⟩

/-- Modelled from the spec (§4.3): `collect(doc, score)` computes the
tweaked key and feeds it to the bounded collector. -/
def TweakedSegmentCollector.collect {V : Type} [LinearOrder V]
    (c : TweakedSegmentCollector V) (doc : Nat) (score : Score) :
    TweakedSegmentCollector V :=
  { c with inner := c.inner.collect doc (c.tweak doc score) }

/-- Harvest of the tweaked segment collector. -/
def TweakedSegmentCollector.harvest {V : Type} [LinearOrder V]
    (c : TweakedSegmentCollector V) : List (RankedDoc V) :=
  c.inner.harvest

/-- `TopScoreSegmentCollector` (src line 139): wraps a
`TopSegmentCollector<Score>`. -/
structure TopScoreSegmentCollector where
  inner : TopSegmentCollector Score

/-- `TopDocs::for_segment` (src lines 120-127), with
`TopCollector::for_segment` modelled from the spec (§4.3): build a bounded
segment collector of capacity `limit` for the segment; it never fails for
the plain top-by-score collector. -/
def TopDocs.for_segment (t : TopDocs) (segment_local_id : Nat) (_reader : SegmentReader) :
    Except TantivyError TopScoreSegmentCollector :=
  .ok ⟨TopSegmentCollector.new Score t.inner.limit segment_local_id⟩

/-- `TopScoreSegmentCollector::collect` (src lines 144-146). -/
def TopScoreSegmentCollector.collect (c : TopScoreSegmentCollector) (doc : Nat)
    (score : Score) : TopScoreSegmentCollector :=
  ⟨c.inner.collect doc score⟩

/-- `TopScoreSegmentCollector::harvest` (src lines 148-150). -/
def TopScoreSegmentCollector.harvest (c : TopScoreSegmentCollector) :
    List (RankedDoc Score) :=
  c.inner.harvest

/-- A segment reader with no fast-field columns (sufficient for the plain
top-by-score collector, which never reads one). -/
def noFastFields : SegmentReader :=
  ⟨fun _ => none⟩

/-- The scan-harness loop over one segment for the plain collector: feed
every `(doc_id, score)` pair, in order. -/
def TopScoreSegmentCollector.collectAll (c : TopScoreSegmentCollector)
    (docs : List (Nat × Score)) : TopScoreSegmentCollector :=
  docs.foldl (fun a d => a.collect d.1 d.2) c

/-- The scan-harness loop over one segment for the tweaked collector. -/
def TweakedSegmentCollector.collectAll {V : Type} [LinearOrder V]
    (c : TweakedSegmentCollector V) (docs : List (Nat × Score)) :
    TweakedSegmentCollector V :=
  docs.foldl (fun a d => a.collect d.1 d.2) c

theorem topScore_collectAll_mk :
    ∀ (docs : List (Nat × Score)) (x : TopSegmentCollector Score),
      TopScoreSegmentCollector.collectAll ⟨x⟩ docs
        = ⟨docs.foldl (fun a d => a.collect d.1 d.2) x⟩
  | [], _ => rfl
  | d :: t, x => topScore_collectAll_mk t (x.collect d.1 d.2)

theorem topScore_collectAll_harvest (k ord : Nat) (docs : List (Nat × Score)) :
    (TopScoreSegmentCollector.collectAll ⟨TopSegmentCollector.new Score k ord⟩ docs).harvest
      = bestK k (segEntries ord docs) := by
  rw [topScore_collectAll_mk]
  exact runSegmentCollector_harvest k ord docs

theorem tweaked_collectAll_mk {V : Type} [LinearOrder V] (tw : Nat → Score → V) :
    ∀ (docs : List (Nat × Score)) (x : TopSegmentCollector V),
      TweakedSegmentCollector.collectAll ⟨x, tw⟩ docs
        = ⟨docs.foldl (fun a d => a.collect d.1 (tw d.1 d.2)) x, tw⟩
  | [], _ => rfl
  | d :: t, x => tweaked_collectAll_mk tw t (x.collect d.1 (tw d.1 d.2))

theorem tweaked_collectAll_harvest {V : Type} [LinearOrder V] (k ord : Nat)
    (tw : Nat → Score → V) (docs : List (Nat × Score)) :
    (TweakedSegmentCollector.collectAll ⟨TopSegmentCollector.new V k ord, tw⟩ docs).harvest
      = bestK k (segEntries ord (docs.map (fun d => (d.1, tw d.1 d.2)))) := by
  rw [tweaked_collectAll_mk]
  show (docs.foldl (fun a d => a.collect d.1 (tw d.1 d.2)) (TopSegmentCollector.new V k ord)).harvest = _
  rw [← List.foldl_map (fun d : Nat × Score => (d.1, tw d.1 d.2))
    (fun (a : TopSegmentCollector V) (d : Nat × V) => a.collect d.1 d.2) docs]
  exact runSegmentCollector_harvest k ord _

theorem DocAddress.lt_of_le_of_ne {a b : DocAddress} (h : DocAddress.le a b)
    (hne : a ≠ b) : DocAddress.lt a b := by
  rcases a with ⟨s, d⟩
  rcases b with ⟨s', d'⟩
  simp only [Ne, DocAddress.mk.injEq, not_and] at hne
  unfold DocAddress.le at h
  unfold DocAddress.lt
  simp only at h ⊢
  rcases eq_or_ne s s' with rfl | hs
  · simp only [forall_const] at hne
    omega
  · omega

section StrictOrdering

variable {K : Type} [LinearOrder K]

theorem rankLt_of_rankLe_addr_ne {a b : RankedDoc K} (h : rankLe a b)
    (hne : a.2 ≠ b.2) : rankLt a b := by
  rcases h with h | ⟨h1, h2⟩
  · exact Or.inl h
  · exact Or.inr ⟨h1, DocAddress.lt_of_le_of_ne h2 hne⟩

/-- A rank-sorted list whose addresses are pairwise distinct is strictly
sorted: strictly descending keys, with addresses strictly ascending inside
every run of equal keys. -/
theorem sorted_rankLt_of_pairwise_addr_ne {l : List (RankedDoc K)}
    (hs : List.Sorted rankLe l) (hd : l.Pairwise (fun a b => a.2 ≠ b.2)) :
    List.Sorted rankLt l :=
  (hs.and hd).imp (fun h => rankLt_of_rankLe_addr_ne h.1 h.2)

theorem mem_bestK {k : Nat} {l : List (RankedDoc K)} {a : RankedDoc K}
    (h : a ∈ bestK k l) : a ∈ l :=
  (sortDesc_perm l).subset ((List.take_sublist k (sortDesc l)).subset h)

theorem bestK_pairwise_addr_ne {k : Nat} {l : List (RankedDoc K)}
    (h : l.Pairwise (fun a b => a.2 ≠ b.2)) :
    (bestK k l).Pairwise (fun a b => a.2 ≠ b.2) := by
  have hp : (sortDesc l).Pairwise (fun a b => a.2 ≠ b.2) :=
    ((sortDesc_perm l).pairwise_iff (fun hxy => Ne.symm hxy)).mpr h
  exact List.Pairwise.sublist (List.take_sublist k _) hp

theorem segEntries_pairwise_addr_ne {ord : Nat} {docs : List (Nat × K)}
    (h : (docs.map Prod.fst).Nodup) :
    (segEntries ord docs).Pairwise (fun a b : RankedDoc K => a.2 ≠ b.2) := by
  unfold segEntries
  rw [List.pairwise_map]
  have h' : docs.Pairwise (fun a b => a.1 ≠ b.1) := List.pairwise_map.mp h
  exact h'.imp (fun hne heq => hne (congrArg DocAddress.doc heq))

theorem segEntries_segment_eq {ord : Nat} {docs : List (Nat × K)}
    {a : RankedDoc K} (h : a ∈ segEntries ord docs) : a.2.segment = ord := by
  unfold segEntries at h
  rcases List.mem_map.mp h with ⟨d, _, rfl⟩
  rfl

end StrictOrdering

/-- All ranked entries a partitioned document set presents: the entries of
every segment, tagged with their segment's ordinal, concatenated. -/
def allSegEntries (segs : List (Nat × List (Nat × Score))) : List (RankedDoc Score) :=
  (segs.map (fun s => segEntries s.1 s.2)).flatten

theorem harvests_flatten_pairwise (k : Nat) (segs : List (Nat × List (Nat × Score)))
    (hord : (segs.map Prod.fst).Nodup)
    (hdocs : ∀ s ∈ segs, (s.2.map Prod.fst).Nodup) :
    ((segs.map (fun s => bestK k (segEntries s.1 s.2))).flatten).Pairwise
      (fun a b : RankedDoc Score => a.2 ≠ b.2) := by
  rw [List.pairwise_flatten]
  constructor
  · intro l hl
    rcases List.mem_map.mp hl with ⟨s, hs, rfl⟩
    exact bestK_pairwise_addr_ne (segEntries_pairwise_addr_ne (hdocs s hs))
  · rw [List.pairwise_map]
    have h' : segs.Pairwise (fun s s' => s.1 ≠ s'.1) := List.pairwise_map.mp hord
    refine h'.imp ?_
    intro s s' hne x hx y hy heq
    have hx' := segEntries_segment_eq (mem_bestK hx)
    have hy' := segEntries_segment_eq (mem_bestK hy)
    exact hne (by rw [← hx', ← hy', heq])

/-- C1: for every set of documents, every partition of that set into
segments, and every limit K up to the total document count, merging the
per-segment top-K harvests with `merge_fruits` yields exactly the same
ordered result as a single bounded top-K collector of capacity K that
collects every document of every segment, in any order (`scanned` is an
arbitrary permutation of all entries). -/
theorem topdocs_merge_equivalence (t : TopDocs) (segs : List (Nat × List (Nat × Score)))
    (scanned : List (RankedDoc Score))
    (hscan : scanned.Perm (allSegEntries segs))
    (hk : t.inner.limit ≤ (allSegEntries segs).length) :
    t.merge_fruits (segs.map (fun s =>
        (TopScoreSegmentCollector.collectAll
          ⟨TopSegmentCollector.new Score t.inner.limit s.1⟩ s.2).harvest))
      = .ok (((TopSegmentCollector.new Score t.inner.limit 0).collectEntries
          scanned).harvest) := by
  unfold TopDocs.merge_fruits TopCollector.merge_fruits
  congr 1
  simp only [topScore_collectAll_harvest]
  rw [show (fun s : Nat × List (Nat × Score) => bestK t.inner.limit (segEntries s.1 s.2))
      = (bestK t.inner.limit) ∘ (fun s : Nat × List (Nat × Score) => segEntries s.1 s.2)
    from rfl]
  rw [← List.map_map]
  calc (sortDesc ((segs.map fun s => segEntries s.1 s.2).map
          (bestK t.inner.limit)).flatten).take t.inner.limit
      = bestK t.inner.limit
          ((segs.map fun s => segEntries s.1 s.2).map (bestK t.inner.limit)).flatten := rfl
    _ = bestK t.inner.limit (segs.map fun s => segEntries s.1 s.2).flatten :=
        bestK_join_map_bestK t.inner.limit _
    _ = bestK t.inner.limit scanned := (bestK_congr hscan t.inner.limit).symm
    _ = _ := (harvest_collectEntries t.inner.limit 0 scanned).symm

/-- C1 witness: two segments, three documents, limit 2, scanned in a
shuffled order. -/
theorem topdocs_merge_equivalence_witness :
    TopDocs.merge_fruits ⟨⟨2⟩⟩
        (([(0, [(0, (3 : Score)), (1, 5)]), (1, [(0, 4)])] :
            List (Nat × List (Nat × Score))).map (fun s =>
          (TopScoreSegmentCollector.collectAll
            ⟨TopSegmentCollector.new Score 2 s.1⟩ s.2).harvest))
      = .ok (((TopSegmentCollector.new Score 2 0).collectEntries
          [((4 : Score), ⟨1, 0⟩), ((3 : Score), ⟨0, 0⟩), ((5 : Score), ⟨0, 1⟩)]).harvest) :=
  topdocs_merge_equivalence ⟨⟨2⟩⟩
    [(0, [(0, (3 : Score)), (1, 5)]), (1, [(0, 4)])]
    [((4 : Score), ⟨1, 0⟩), ((3 : Score), ⟨0, 0⟩), ((5 : Score), ⟨0, 1⟩)]
    (by decide) (by decide)

/-- C2: for every limit K ≥ 1 and every sequence of collect calls on a
segment collector built with that limit, harvest returns the `min(K, n)`
best entries seen so far under the comparison rule (the first `min(K, n)`
of the rank-sorted entry list), in particular exactly `min(K, n)` of
them. -/
theorem segment_bound_invariant (k ord : Nat) (hk : 1 ≤ k) (docs : List (Nat × Score)) :
    (TopScoreSegmentCollector.collectAll
        ⟨TopSegmentCollector.new Score k ord⟩ docs).harvest
      = bestK k (segEntries ord docs)
    ∧ ((TopScoreSegmentCollector.collectAll
        ⟨TopSegmentCollector.new Score k ord⟩ docs).harvest).length
      = min k docs.length := by
  refine ⟨topScore_collectAll_harvest k ord docs, ?_⟩
  rw [topScore_collectAll_harvest k ord docs, length_bestK]
  unfold segEntries
  rw [List.length_map]

/-- C2 witness: limit 2, three documents collected. -/
theorem segment_bound_invariant_witness :
    (TopScoreSegmentCollector.collectAll
        ⟨TopSegmentCollector.new Score 2 0⟩ [(0, (1 : Score)), (1, 2), (2, 3)]).harvest
      = bestK 2 (segEntries 0 [(0, (1 : Score)), (1, 2), (2, 3)])
    ∧ ((TopScoreSegmentCollector.collectAll
        ⟨TopSegmentCollector.new Score 2 0⟩ [(0, (1 : Score)), (1, 2), (2, 3)]).harvest).length
      = min 2 3 :=
  segment_bound_invariant 2 0 (by decide) [(0, (1 : Score)), (1, 2), (2, 3)]

/-- C4 counterexample: constructing a top-docs collector with limit 0
panics (the documented contract, asserted by the `#[should_panic]` test
`test_top_0`); it does not return any value — in particular no
InvalidArgument error — to the caller, refuting the claim as stated. -/
theorem with_limit_zero_panics :
    TopDocs.with_limit 0 = .panicked ∧ ∀ t, TopDocs.with_limit 0 ≠ .ok t := by
  refine ⟨rfl, ?_⟩
  intro t h
  exact PanicOr.noConfusion ((rfl : TopDocs.with_limit 0 = PanicOr.panicked) ▸ h)

/-- C4 amended: constructing a top-docs collector with limit 0 panics
(it does not succeed), and for every limit ≥ 1 construction succeeds with
exactly the requested limit — no silent substitution of a default. -/
theorem construction_guard :
    TopDocs.with_limit 0 = .panicked
    ∧ ∀ limit, 1 ≤ limit → TopDocs.with_limit limit = .ok ⟨⟨limit⟩⟩ := by
  refine ⟨rfl, ?_⟩
  intro limit h
  unfold TopDocs.with_limit TopCollector.with_limit
  rw [if_neg (by omega)]

/-- C4 witness for the amended claim, at limit 3. -/
theorem construction_guard_witness :
    TopDocs.with_limit 0 = .panicked ∧ TopDocs.with_limit 3 = .ok ⟨⟨3⟩⟩ :=
  ⟨construction_guard.1, construction_guard.2 3 (by decide)⟩

/-- C5: for every field that is absent from the schema or not configured
as a fast field, the collector built by `order_by_field` fails at
`for_segment` time — before any document is collected or scored — with a
SchemaError.  Absence-or-not-fast is phrased as: the schema entry of
`field`, taken as non-fast when the field is out of range, is not fast. -/
theorem order_by_field_schema_guard {V : Type} (t : TopDocs) (from_u64 : Nat → V)
    (field ord : Nat) (s : Schema) (data : Nat → Nat → Nat)
    (hbad : (s.getD field ⟨false⟩).isFast = false) :
    (t.order_by_field from_u64 field).for_segment ord (SegmentReader.ofSchema s data)
      = .error (.schemaError "Field is not a fast field.") := by
  have hnone : (SegmentReader.ofSchema s data).u64_lenient field = none := by
    unfold SegmentReader.ofSchema SegmentReader.u64_lenient
    simp only
    rcases Nat.lt_or_ge field s.length with hlt | hge
    · have hfast : ¬ ((s.get ⟨field, hlt⟩).isFast = true) := by
        rw [← List.getD_eq_get s ⟨false⟩ hlt, hbad]
        exact Bool.false_ne_true
      rw [dif_pos hlt, if_neg hfast]
    · rw [dif_neg (by omega)]
  unfold TweakedScoreTopCollector.for_segment TopDocs.order_by_field
    TopDocs.tweak_score TweakedScoreTopCollector.new
  simp only [hnone]

/-- C5 witness: a one-field schema whose only field is not fast. -/
theorem order_by_field_schema_guard_witness :
    (TopDocs.order_by_field ⟨⟨4⟩⟩ (fun v : Nat => v) 0).for_segment 0
        (SegmentReader.ofSchema [⟨false⟩] (fun _ _ => 0))
      = .error (.schemaError "Field is not a fast field.") :=
  order_by_field_schema_guard ⟨⟨4⟩⟩ (fun v : Nat => v) 0 0 [⟨false⟩] (fun _ _ => 0)
    (by decide)

/-- C3: for scans that collect each document once (the documented per-call
contract of `collect`, so all DocAddresses are distinct), every harvested
result and every merged result is sorted by `rankLt`: strictly descending
by rank key, and within every run of equal keys the DocAddress values
strictly ascending. -/
theorem ordering_invariant (k : Nat) (segs : List (Nat × List (Nat × Score)))
    (hord : (segs.map Prod.fst).Nodup)
    (hdocs : ∀ s ∈ segs, (s.2.map Prod.fst).Nodup) :
    (∀ s ∈ segs, List.Sorted rankLt
        ((TopScoreSegmentCollector.collectAll
          ⟨TopSegmentCollector.new Score k s.1⟩ s.2).harvest))
    ∧ ∀ merged, TopDocs.merge_fruits ⟨⟨k⟩⟩ (segs.map (fun s =>
          (TopScoreSegmentCollector.collectAll
            ⟨TopSegmentCollector.new Score k s.1⟩ s.2).harvest))
        = .ok merged → List.Sorted rankLt merged := by
  constructor
  · intro s hs
    rw [topScore_collectAll_harvest]
    exact sorted_rankLt_of_pairwise_addr_ne (bestK_sorted k _)
      (bestK_pairwise_addr_ne (segEntries_pairwise_addr_ne (hdocs s hs)))
  · intro merged hm
    unfold TopDocs.merge_fruits TopCollector.merge_fruits at hm
    simp only [topScore_collectAll_harvest] at hm
    injection hm with hm'
    subst hm'
    exact sorted_rankLt_of_pairwise_addr_ne (bestK_sorted k _)
      (bestK_pairwise_addr_ne (harvests_flatten_pairwise k segs hord hdocs))

/-- C3 witness: two segments, a score tie inside segment 0, limit 2. -/
theorem ordering_invariant_witness :
    (∀ s ∈ ([(0, [(0, (1 : Score)), (1, 1)]), (1, [(0, 2)])] :
        List (Nat × List (Nat × Score))),
      List.Sorted rankLt
        ((TopScoreSegmentCollector.collectAll
          ⟨TopSegmentCollector.new Score 2 s.1⟩ s.2).harvest))
    ∧ ∀ merged, TopDocs.merge_fruits ⟨⟨2⟩⟩
        (([(0, [(0, (1 : Score)), (1, 1)]), (1, [(0, 2)])] :
            List (Nat × List (Nat × Score))).map (fun s =>
          (TopScoreSegmentCollector.collectAll
            ⟨TopSegmentCollector.new Score 2 s.1⟩ s.2).harvest))
        = .ok merged → List.Sorted rankLt merged :=
  ordering_invariant 2 [(0, [(0, (1 : Score)), (1, 1)]), (1, [(0, 2)])]
    (by decide) (by decide)

/-- The document stream of Scenarios A and B: a single segment (ordinal 0)
whose doc ids 1, 2, 0 carry scores 0.812, 0.538, 0.485, scanned in
ascending doc-id order. -/
def scenarioDocs : List (Nat × Score) :=
  [(0, 0.485), (1, 0.812), (2, 0.538)]

/-- C6: on the Scenario A/B input, the plain top-by-score collector bound
at limit 4 returns all three pairs in descending score order, and bound at
limit 2 returns exactly the top two pairs, the worst entry dropped. -/
theorem scenario_top_score :
    (⟨⟨4⟩⟩ : TopDocs).for_segment 0 noFastFields
      = .ok ⟨TopSegmentCollector.new Score 4 0⟩
    ∧ (⟨⟨2⟩⟩ : TopDocs).for_segment 0 noFastFields
      = .ok ⟨TopSegmentCollector.new Score 2 0⟩
    ∧ (TopScoreSegmentCollector.collectAll
        ⟨TopSegmentCollector.new Score 4 0⟩ scenarioDocs).harvest
      = [((0.812 : Score), ⟨0, 1⟩), ((0.538 : Score), ⟨0, 2⟩), ((0.485 : Score), ⟨0, 0⟩)]
    ∧ (TopScoreSegmentCollector.collectAll
        ⟨TopSegmentCollector.new Score 2 0⟩ scenarioDocs).harvest
      = [((0.812 : Score), ⟨0, 1⟩), ((0.538 : Score), ⟨0, 2⟩)] := by
  have h1 : (0.485 : Score) = mkRat 485 1000 := by norm_num
  have h2 : (0.812 : Score) = mkRat 812 1000 := by norm_num
  have h3 : (0.538 : Score) = mkRat 538 1000 := by norm_num
  have hd : scenarioDocs = [(0, mkRat 485 1000), (1, mkRat 812 1000), (2, mkRat 538 1000)] := by
    unfold scenarioDocs
    rw [h1, h2, h3]
  refine ⟨rfl, rfl, ?_, ?_⟩
  · rw [hd, h2, h3, h1]
    decide
  · rw [hd, h2, h3]
    decide

/-- The schema of Scenario C: field 0 (the text field, not fast) and
field 1 (the u64 `size` field, fast).  The size column holds 12, 64, 16
at doc ids 0, 1, 2. -/
def scenarioSchema : Schema := [⟨false⟩, ⟨true⟩]

/-- The fast-field column data of Scenario C. -/
def scenarioSizeData : Nat → Nat → Nat :=
  fun f d => if f = 1 then [12, 64, 16].getD d 0 else 0

/-- The Scenario C segment reader. -/
def scenarioReader : SegmentReader :=
  SegmentReader.ofSchema scenarioSchema scenarioSizeData

/-- C7: order-by-field ranking on the size field with limit 4 binds to the
segment and returns all documents ordered descending by the field value
(64, 16, 12 at docs 1, 2, 0), with the relevance scores (which differ per
document here) ignored as ranking key. -/
theorem scenario_order_by_field :
    ((⟨⟨4⟩⟩ : TopDocs).order_by_field (fun v : Nat => v) 1).for_segment 0 scenarioReader
      = .ok ⟨TopSegmentCollector.new Nat 4 0, fun doc _ => scenarioSizeData 1 doc⟩
    ∧ ((⟨TopSegmentCollector.new Nat 4 0, fun doc _ => scenarioSizeData 1 doc⟩ :
          TweakedSegmentCollector Nat).collectAll
        [(0, 0.9), (1, 0.1), (2, 0.5)]).harvest
      = [((64 : Nat), ⟨0, 1⟩), ((16 : Nat), ⟨0, 2⟩), ((12 : Nat), ⟨0, 0⟩)] := by
  refine ⟨rfl, ?_⟩
  decide

/-- C8: `requires_scoring` of the plain top-by-score collector is true for
every instance, regardless of its limit. -/
theorem requires_scoring_always_true (t : TopDocs) : t.requires_scoring = true :=
  rfl

/-- C9: the per-segment key function produced by `order_by_field` does not
depend on the original relevance score: whenever segment binding succeeds,
the tweaked key of any document is identical for any two scores. -/
theorem order_by_field_score_independent {V : Type} (t : TopDocs) (from_u64 : Nat → V)
    (field ord : Nat) (reader : SegmentReader) (c : TweakedSegmentCollector V)
    (hok : (t.order_by_field from_u64 field).for_segment ord reader = .ok c)
    (doc : Nat) (s1 s2 : Score) :
    c.tweak doc s1 = c.tweak doc s2 := by
  unfold TweakedScoreTopCollector.for_segment TopDocs.order_by_field
    TopDocs.tweak_score TweakedScoreTopCollector.new at hok
  simp only at hok
  cases hu : reader.u64_lenient field with
  | none =>
    rw [hu] at hok
    exact Except.noConfusion hok
  | some ff =>
    rw [hu] at hok
    cases hok
    rfl

/-- C9 witness: the Scenario C binding at doc 0 with two different
scores. -/
theorem order_by_field_score_independent_witness :
    (⟨TopSegmentCollector.new Nat 4 0, fun doc _ => scenarioSizeData 1 doc⟩ :
        TweakedSegmentCollector Nat).tweak 0 (0.25 : Score)
      = (⟨TopSegmentCollector.new Nat 4 0, fun doc _ => scenarioSizeData 1 doc⟩ :
        TweakedSegmentCollector Nat).tweak 0 (0.75 : Score) :=
  order_by_field_score_independent ⟨⟨4⟩⟩ (fun v : Nat => v) 1 0 scenarioReader _
    rfl 0 0.25 0.75

/-- C10: `tweak_score` and `order_by_field` build the tweaked collector
with exactly the limit of the `TopDocs` collector they come from, and the
harvests of the tweaked collector stay bounded by that same limit. -/
theorem tweak_preserves_limit {V : Type} [LinearOrder V] (t : TopDocs)
    (score_tweaker : ScoreTweaker V) (from_u64 : Nat → V) (field : Nat) :
    (t.tweak_score score_tweaker).limit = t.inner.limit
    ∧ (t.order_by_field from_u64 field).limit = t.inner.limit
    ∧ ∀ (ord : Nat) (reader : SegmentReader) (c : TweakedSegmentCollector V)
        (docs : List (Nat × Score)),
        (t.order_by_field from_u64 field).for_segment ord reader = .ok c →
        ((c.collectAll docs).harvest).length ≤ t.inner.limit := by
  refine ⟨rfl, rfl, ?_⟩
  intro ord reader c docs hok
  unfold TweakedScoreTopCollector.for_segment TopDocs.order_by_field
    TopDocs.tweak_score TweakedScoreTopCollector.new at hok
  simp only at hok
  cases hu : reader.u64_lenient field with
  | none =>
    rw [hu] at hok
    exact Except.noConfusion hok
  | some ff =>
    rw [hu] at hok
    cases hok
    rw [tweaked_collectAll_harvest, length_bestK]
    exact Nat.min_le_left _ _

/-- C10 witness: limit preserved and harvest bounded at the Scenario C
binding. -/
theorem tweak_preserves_limit_witness :
    ((⟨⟨4⟩⟩ : TopDocs).order_by_field (fun v : Nat => v) 1).limit = 4
    ∧ (((⟨TopSegmentCollector.new Nat 4 0, fun doc _ => scenarioSizeData 1 doc⟩ :
          TweakedSegmentCollector Nat).collectAll [(0, 0.9)]).harvest).length ≤ 4 :=
  ⟨(tweak_preserves_limit ⟨⟨4⟩⟩ (fun _ => .error (.schemaError "")) (fun v : Nat => v) 1).2.1,
   (tweak_preserves_limit ⟨⟨4⟩⟩ (fun _ => .error (.schemaError "")) (fun v : Nat => v) 1).2.2
     0 scenarioReader _ [(0, 0.9)] rfl⟩
